import Mathlib

/-!
Verification of the text-processing core of the MPOS-Wikipedia application
(src/assets/wikipedia.py): the Unicode normalizer `normalize_text`, the
percent-encoder `url_encode`, the API-response interpreter inside
`WikipediaApp.search_event_handler`, and the line-based heading styler.
Strings are modelled as lists of characters; Python `str.replace` with a
single-character needle is modelled as a character-wise expansion.
-/

/-- Strings of the Python program, modelled as lists of characters. -/
abbrev Str := List Char

/-- The ASCII apostrophe character. -/
def apos : Char := Char.ofNat 39

/-- The ASCII backtick character. -/
def btick : Char := Char.ofNat 96

/-- Character-wise expansion of a string: each character is replaced by the
string `g c`.  This is the semantic core of Python `str.replace` with a
single-character pattern. -/
def chMap (g : Char → Str) : Str → Str
  | [] => []
  | c :: rest => g c ++ chMap g rest

/-- Python `text.replace(needle, repl)` for a single-character `needle`:
every occurrence of `needle` becomes `repl`, all other characters are kept. -/
def replaceChar (needle : Char) (repl : Str) : Str → Str
  | [] => []
  | c :: rest => (if c = needle then repl else [c]) ++ replaceChar needle repl rest

/-- Sequential application of single-character replacements, in table order:
the Python loop `for k, v in table.items(): text = text.replace(k, v)`. -/
def foldRepl (tbl : List (Char × Str)) (s : Str) : Str :=
  tbl.foldl (fun r p => replaceChar p.1 p.2 r) s

/-- First-match association lookup in a replacement table. -/
def chAssoc (tbl : List (Char × Str)) (c : Char) : Option Str :=
  match tbl with
  | [] => none
  | p :: rest => if c = p.1 then some p.2 else chAssoc rest c

/-- Lookup in a replacement table, defaulting to the character itself. -/
def chLookup (tbl : List (Char × Str)) (c : Char) : Str :=
  match chAssoc tbl c with
  | some v => v
  | none => [c]

/-- The `unicode_map` table of `normalize_text` in src/assets/wikipedia.py,
in source (dict-insertion) order. -/
def unicode_map : List (Char × Str) :=
  [ ('\u2013', (" - ".toList)),
    ('\u2014', (" - ".toList)),
    ('\u2011', ("-".toList)),
    ('\u2010', ("-".toList)),
    ('\u2018', [apos]),
    ('\u2019', [apos]),
    ('\u201c', ("\"".toList)),
    ('\u201d', ("\"".toList)),
    ('\u2032', [apos]),
    ('\u2033', ("\"".toList)),
    ('\u00a0', (" ".toList)),
    ('\u2009', (" ".toList)),
    ('\u200a', (" ".toList)),
    ('\u00e0', ("a".toList)),
    ('\u00e1', ("a".toList)),
    ('\u00e2', ("a".toList)),
    ('\u00e3', ("a".toList)),
    ('\u00e4', ("a".toList)),
    ('\u00e5', ("a".toList)),
    ('\u00e6', ("ae".toList)),
    ('\u00e7', ("c".toList)),
    ('\u00e8', ("e".toList)),
    ('\u00e9', ("e".toList)),
    ('\u00ea', ("e".toList)),
    ('\u00eb', ("e".toList)),
    ('\u00ec', ("i".toList)),
    ('\u00ed', ("i".toList)),
    ('\u00ee', ("i".toList)),
    ('\u00ef', ("i".toList)),
    ('\u00f0', ("d".toList)),
    ('\u00f1', ("n".toList)),
    ('\u00f2', ("o".toList)),
    ('\u00f3', ("o".toList)),
    ('\u00f4', ("o".toList)),
    ('\u00f5', ("o".toList)),
    ('\u00f6', ("o".toList)),
    ('\u00f8', ("o".toList)),
    ('\u00f9', ("u".toList)),
    ('\u00fa', ("u".toList)),
    ('\u00fb', ("u".toList)),
    ('\u00fc', ("u".toList)),
    ('\u00fd', ("y".toList)),
    ('\u00fe', ("th".toList)),
    ('\u00ff', ("y".toList)),
    ('\u0101', ("a".toList)),
    ('\u0113', ("e".toList)),
    ('\u012b', ("i".toList)),
    ('\u014d', ("o".toList)),
    ('\u016b', ("u".toList)),
    ('\u00c0', ("A".toList)),
    ('\u00c1', ("A".toList)),
    ('\u00c2', ("A".toList)),
    ('\u00c3', ("A".toList)),
    ('\u00c4', ("A".toList)),
    ('\u00c5', ("A".toList)),
    ('\u00c6', ("AE".toList)),
    ('\u00c7', ("C".toList)),
    ('\u00c8', ("E".toList)),
    ('\u00c9', ("E".toList)),
    ('\u00ca', ("E".toList)),
    ('\u00cb', ("E".toList)),
    ('\u00cc', ("I".toList)),
    ('\u00cd', ("I".toList)),
    ('\u00ce', ("I".toList)),
    ('\u00cf', ("I".toList)),
    ('\u00d0', ("D".toList)),
    ('\u00d1', ("N".toList)),
    ('\u00d2', ("O".toList)),
    ('\u00d3', ("O".toList)),
    ('\u00d4', ("O".toList)),
    ('\u00d5', ("O".toList)),
    ('\u00d6', ("O".toList)),
    ('\u00d8', ("O".toList)),
    ('\u00d9', ("U".toList)),
    ('\u00da', ("U".toList)),
    ('\u00db', ("U".toList)),
    ('\u00dc', ("U".toList)),
    ('\u00dd', ("Y".toList)),
    ('\u00de', ("TH".toList)),
    ('\u0100', ("A".toList)),
    ('\u0112', ("E".toList)),
    ('\u012a', ("I".toList)),
    ('\u014c', ("O".toList)),
    ('\u016a', ("U".toList)),
    ('\u2022', ("*".toList)),
    ('\u2026', ("...".toList)),
    ('\u00b0', (" deg".toList)),
    ('\u00d7', ("x".toList)),
    ('\u00f7', ("/".toList)),
    ('\u00a5', ("yen".toList)) ]

/-- The function `normalize_text` from src/assets/wikipedia.py: apply every replacement of
`unicode_map`, in table order. -/
def normalize_text (text : Str) : Str :=
  foldRepl unicode_map text

/-- The `encoding_map` table of `url_encode` in src/assets/wikipedia.py,
in source (dict-insertion) order. -/
def encoding_map : List (Char × Str) :=
  [ (' ', ("%20".toList)),
    ('!', ("%21".toList)),
    ('"', ("%22".toList)),
    ('#', ("%23".toList)),
    ('$', ("%24".toList)),
    ('%', ("%25".toList)),
    ('&', ("%26".toList)),
    (apos, ("%27".toList)),
    ('(', ("%28".toList)),
    (')', ("%29".toList)),
    ('*', ("%2A".toList)),
    ('+', ("%2B".toList)),
    (',', ("%2C".toList)),
    ('/', ("%2F".toList)),
    (':', ("%3A".toList)),
    (';', ("%3B".toList)),
    ('=', ("%3D".toList)),
    ('?', ("%3F".toList)),
    ('@', ("%40".toList)),
    ('[', ("%5B".toList)),
    ('\\', ("%5C".toList)),
    (']', ("%5D".toList)),
    ('^', ("%5E".toList)),
    (btick, ("%60".toList)),
    ('{', ("%7B".toList)),
    ('|', ("%7C".toList)),
    ('}', ("%7D".toList)),
    ('~', ("%7E".toList)),
    ('<', ("%3C".toList)),
    ('>', ("%3E".toList)) ]

/-- The function `url_encode` from src/assets/wikipedia.py: replace every percent sign by
its escape first (guarded by a containment test, exactly as in the source),
then apply every other entry of `encoding_map`, skipping the percent entry. -/
def url_encode (text : Str) : Str :=
  let result := if '%' ∈ text then replaceChar '%' ("%25".toList) text else text
  encoding_map.foldl (fun r p => if p.1 = '%' then r else replaceChar p.1 p.2 r) result

/-- The net per-character effect claimed for `url_encode`: a character in the
encoding table becomes its two-digit uppercase-hex percent form, every other
character is left unchanged. -/
def urlEncodeChar (c : Char) : Str :=
  chLookup encoding_map c

/-- The value of a hexadecimal digit, accepting both cases, as used by a
standard percent-decoder. -/
def hexDigitVal (c : Char) : Option Nat :=
  if '0' ≤ c ∧ c ≤ '9' then some (c.toNat - 48)
  else if 'A' ≤ c ∧ c ≤ 'F' then some (c.toNat - 65 + 10)
  else if 'a' ≤ c ∧ c ≤ 'f' then some (c.toNat - 97 + 10)
  else none

/-- Standard percent-decoding, as described by the round-trip claim: each
percent sign followed by two hexadecimal digits is replaced by the character
with that code; any other character, including a percent sign not followed by
two hexadecimal digits, is passed through. -/
def percentDecode : Str → Str
  | c :: h1 :: h2 :: rest =>
    if c = '%' then
      match hexDigitVal h1, hexDigitVal h2 with
      | some a, some b => Char.ofNat (16 * a + b) :: percentDecode rest
      | _, _ => c :: percentDecode (h1 :: h2 :: rest)
    else c :: percentDecode (h1 :: h2 :: rest)
  | c :: rest => c :: percentDecode rest
  | [] => []

/-- The set of characters stripped by Python `str.strip` and `str.rstrip`
with no argument (the characters for which `str.isspace` holds). -/
def pyIsSpace (c : Char) : Bool :=
  c ∈ ([' ', '\t', '\n', '\x0b', '\x0c', '\r',
        '\x1c', '\x1d', '\x1e', '\x1f', '\u0085', '\u00a0', '\u1680',
        '\u2000', '\u2001', '\u2002', '\u2003', '\u2004', '\u2005', '\u2006',
        '\u2007', '\u2008', '\u2009', '\u200a', '\u2028', '\u2029', '\u202f',
        '\u205f', '\u3000'] : List Char)

/-- Python `line.rstrip()`: remove trailing whitespace. -/
def pyRstrip (s : Str) : Str :=
  (s.reverse.dropWhile pyIsSpace).reverse

/-- Python `line.lstrip()`: remove leading whitespace. -/
def pyLstrip (s : Str) : Str :=
  s.dropWhile pyIsSpace

/-- Python `text.strip()`: remove leading and trailing whitespace. -/
def pyStrip (s : Str) : Str :=
  pyLstrip (pyRstrip s)

/-- Python `text.split(chr)` for a one-character separator: split into the
(possibly empty) segments between occurrences of the separator. -/
def splitSep (sep : Char) : Str → List Str
  | [] => [[]]
  | c :: rest =>
    if c = sep then [] :: splitSep sep rest
    else
      match splitSep sep rest with
      | s :: ss => (c :: s) :: ss
      | [] => [[c]]

/-- Python slicing `s[a:-b]` for nonnegative `a` and positive `b`: the
characters from position `a` up to `b` positions before the end. -/
def pySlice (a b : Nat) (s : Str) : Str :=
  (s.take (s.length - b)).drop a

/-- The body of the heading-styling loop in `search_event_handler`
(src/assets/wikipedia.py, lines 389-404): strip trailing whitespace, then
rewrite a level-3 heading, else a level-2 heading, else keep the line. -/
def styleLine (colorHex : Str) (rawLine : Str) : Str :=
  let line := pyRstrip rawLine
  if (("=== ".toList).isPrefixOf line && (" ===".toList).isSuffixOf line) then
    ("#".toList) ++ colorHex ++ (" === ".toList) ++ pySlice 4 4 line ++ (" ===#".toList)
  else if (("== ".toList).isPrefixOf line && (" ==".toList).isSuffixOf line) then
    ("#".toList) ++ colorHex ++ (" == ".toList) ++ pySlice 3 3 line ++ (" ==#".toList)
  else line

/-- The heading styler of `search_event_handler` (src/assets/wikipedia.py,
lines 386-406): split on newlines, process each line, join with newlines,
strip the whole result. -/
def styleHeadings (colorHex : Str) (extract : Str) : Str :=
  let lines := splitSep '\n' extract
  let styled_lines := lines.foldl (fun acc line => acc ++ [styleLine colorHex line]) []
  pyStrip (List.intercalate ("\n".toList) styled_lines)

/-- The per-line transformation in the words of the claim: a line starting
with the four characters of the level-3 opening marker and ending with its
closing marker has that four-character prefix and four-character suffix
removed and is wrapped in a color span; analogously with three characters for
level 2; any other line is kept (after the trailing-whitespace strip). -/
def styleLineClaim (colorHex : Str) (rawLine : Str) : Str :=
  let line := pyRstrip rawLine
  if line.take 4 = ("=== ".toList) ∧ line.drop (line.length - 4) = (" ===".toList) then
    ("#".toList) ++ colorHex ++ (" === ".toList) ++ (line.drop 4).take (line.length - 8)
      ++ (" ===#".toList)
  else if line.take 3 = ("== ".toList) ∧ line.drop (line.length - 3) = (" ==".toList) then
    ("#".toList) ++ colorHex ++ (" == ".toList) ++ (line.drop 3).take (line.length - 6)
      ++ (" ==#".toList)
  else line

/-- A `links` entry of a Wikipedia API page, with possibly missing fields. -/
structure Link where
  ns : Option Int
  title : Option Str
deriving DecidableEq

/-- A page of a Wikipedia API response.  `pageprops` is modelled by its list
of keys; a missing `links` field is distinguished from an empty one. -/
structure Page where
  title : Option Str
  extract : Option Str
  pageprops : Option (List Str)
  links : Option (List Link)
deriving DecidableEq

/-- The three-way outcome of interpreting an API response, with the empty
disambiguation case kept distinct. -/
inductive Outcome where
  | notFound : Outcome
  | disambiguationEmpty : Outcome
  | disambiguation : Str → List Str → Outcome
  | article : Str → Str → Outcome
deriving DecidableEq

/-- The test `"pageprops" in page and "disambiguation" in page["pageprops"]`
from src/assets/wikipedia.py line 333. -/
def pageIsDisambig (p : Page) : Bool :=
  match p.pageprops with
  | some ks => decide (("disambiguation".toList) ∈ ks)
  | none => false

/-- The candidate-title loop of src/assets/wikipedia.py lines 336-342: keep
the title of every link whose namespace is the main namespace, dropping
missing and empty titles, appending in order of appearance. -/
def collectTitles (links : List Link) : List Str :=
  links.foldl
    (fun acc l =>
      if l.ns = some 0 then
        match l.title with
        | some t => if t ≠ [] then acc ++ [t] else acc
        | none => acc
      else acc)
    []

/-- The outcome-selection logic of `search_event_handler`
(src/assets/wikipedia.py lines 320-355) on the parsed `pages` mapping,
modelled as an association list in iteration order; `none` corresponds to the
`next(iter(pages))` failure on an empty mapping. -/
def interpret (query : Str) (pages : List (Str × Page)) : Option Outcome :=
  match pages with
  | [] => none
  | (page_id, page) :: _ =>
    if page_id = ("-1".toList) then some Outcome.notFound
    else if pageIsDisambig page then
      let titles := collectTitles (page.links.getD [])
      if titles = [] then some Outcome.disambiguationEmpty
      else some (Outcome.disambiguation query titles)
    else
      some (Outcome.article (page.title.getD query)
        (page.extract.getD ("NO EXTRACT FOUND".toList)))

/-- What the event handler does with an outcome: an error message in the
article label, a disambiguation picker, or the styled article. -/
inductive RenderAction where
  | showMessage : Str → RenderAction
  | showPicker : Str → List Str → RenderAction
  | showArticle : Str → Str → RenderAction
deriving DecidableEq

/-- The display step of `search_event_handler` for each outcome: the
not-found and empty-disambiguation messages (src lines 324 and 345-347), the
disambiguation popup (line 351), and the normalized, styled article
(lines 355-413). -/
def renderOutcome (query : Str) (colorHex : Str) : Outcome → RenderAction
  | Outcome.notFound =>
    RenderAction.showMessage (("Article ".toList) ++ [apos] ++ query ++ [apos]
      ++ (" not found.".toList))
  | Outcome.disambiguationEmpty =>
    RenderAction.showMessage ([apos] ++ query ++ [apos]
      ++ (" is a disambiguation page, but no articles were found.".toList))
  | Outcome.disambiguation q ts => RenderAction.showPicker q ts
  | Outcome.article t e =>
    RenderAction.showArticle t (styleHeadings colorHex (normalize_text e))

/-- An outcome is the not-found outcome. -/
def isNotFoundOutcome (o : Outcome) : Prop :=
  o = Outcome.notFound

/-- An outcome is a disambiguation outcome, the empty case included. -/
def isDisambigOutcome (o : Outcome) : Prop :=
  (∃ q ts, o = Outcome.disambiguation q ts) ∨ o = Outcome.disambiguationEmpty

/-- An outcome is a direct-article outcome. -/
def isArticleOutcome (o : Outcome) : Prop :=
  ∃ t e, o = Outcome.article t e

theorem chMap_append (g : Char → Str) (a b : Str) :
    chMap g (a ++ b) = chMap g a ++ chMap g b := by
  induction a with
  | nil => rfl
  | cons c rest ih => simp [chMap, ih]

theorem chMap_congr (f g : Char → Str) (s : Str) (h : ∀ c ∈ s, f c = g c) :
    chMap f s = chMap g s := by
  induction s with
  | nil => rfl
  | cons c rest ih =>
    simp only [chMap]
    rw [h c (List.mem_cons_self c rest), ih (fun x hx => h x (List.mem_cons_of_mem c hx))]

theorem chMap_congr_id (g : Char → Str) (s : Str) (h : ∀ c ∈ s, g c = [c]) :
    chMap g s = s := by
  induction s with
  | nil => rfl
  | cons c rest ih =>
    simp only [chMap]
    rw [h c (List.mem_cons_self c rest), ih (fun x hx => h x (List.mem_cons_of_mem c hx))]
    rfl

theorem chMap_comp (f g : Char → Str) (s : Str) :
    chMap g (chMap f s) = chMap (fun c => chMap g (f c)) s := by
  induction s with
  | nil => rfl
  | cons c rest ih => simp [chMap, chMap_append, ih]

theorem replaceChar_eq_chMap (n : Char) (r : Str) (s : Str) :
    replaceChar n r s = chMap (fun c => if c = n then r else [c]) s := by
  induction s with
  | nil => rfl
  | cons c rest ih => simp [replaceChar, chMap, ih]

theorem replaceChar_not_mem {n : Char} (r : Str) {s : Str} (h : n ∉ s) :
    replaceChar n r s = s := by
  induction s with
  | nil => rfl
  | cons c rest ih =>
    have hc : c ≠ n := fun e => h (e ▸ List.mem_cons_self c rest)
    simp only [replaceChar, if_neg hc]
    rw [ih (fun hm => h (List.mem_cons_of_mem c hm))]
    rfl

theorem chAssoc_eq_none {tbl : List (Char × Str)} {c : Char}
    (h : ∀ p ∈ tbl, p.1 ≠ c) : chAssoc tbl c = none := by
  induction tbl with
  | nil => rfl
  | cons p rest ih =>
    have hp : c ≠ p.1 := fun e => h p (List.mem_cons_self p rest) e.symm
    simp only [chAssoc, if_neg hp]
    exact ih (fun q hq => h q (List.mem_cons_of_mem p hq))

theorem mem_of_chAssoc_some {tbl : List (Char × Str)} {c : Char} {v : Str}
    (h : chAssoc tbl c = some v) : (c, v) ∈ tbl := by
  induction tbl with
  | nil => simp [chAssoc] at h
  | cons p rest ih =>
    by_cases hc : c = p.1
    · simp only [chAssoc, if_pos hc] at h
      have : (c, v) = p := by
        cases p with
        | mk k w => cases h; cases hc; rfl
      exact this ▸ List.mem_cons_self p rest
    · simp only [chAssoc, if_neg hc] at h
      exact List.mem_cons_of_mem p (ih h)

theorem chMap_chLookup_replace (p : Char × Str) (tbl : List (Char × Str))
    (h1 : ∀ q ∈ tbl, q.1 ∉ p.2) (s : Str) :
    chMap (chLookup tbl) (replaceChar p.1 p.2 s) = chMap (chLookup (p :: tbl)) s := by
  induction s with
  | nil => rfl
  | cons c rest ih =>
    simp only [replaceChar, chMap_append, ih, chMap]
    by_cases hc : c = p.1
    · rw [if_pos hc]
      have habsorb : chMap (chLookup tbl) p.2 = p.2 := by
        refine chMap_congr_id _ _ (fun x hx => ?_)
        have : chAssoc tbl x = none :=
          chAssoc_eq_none (fun q hq e => h1 q hq (e ▸ hx))
        simp [chLookup, this]
      rw [habsorb, hc]
      have : chAssoc (p :: tbl) p.1 = some p.2 := by simp [chAssoc]
      simp [chLookup, this]
    · rw [if_neg hc]
      have : chAssoc (p :: tbl) c = chAssoc tbl c := by simp [chAssoc, if_neg hc]
      simp [chMap, chLookup, this]

theorem foldRepl_eq_chMap :
    ∀ (tbl : List (Char × Str)), (∀ p ∈ tbl, ∀ q ∈ tbl, p.1 ∉ q.2) →
      ∀ s, foldRepl tbl s = chMap (chLookup tbl) s
  | [], _, s => by
    refine (chMap_congr_id _ _ (fun c _ => ?_)).symm
    simp [chLookup, chAssoc]
  | p :: tbl, hgood, s => by
    have hx : foldRepl (p :: tbl) s = foldRepl tbl (replaceChar p.1 p.2 s) := rfl
    have hsub : ∀ a ∈ tbl, ∀ b ∈ tbl, a.1 ∉ b.2 := fun a ha b hb =>
      hgood a (List.mem_cons_of_mem p ha) b (List.mem_cons_of_mem p hb)
    have h1 : ∀ q ∈ tbl, q.1 ∉ p.2 := fun q hq =>
      hgood q (List.mem_cons_of_mem p hq) p (List.mem_cons_self p tbl)
    rw [hx, foldRepl_eq_chMap tbl hsub _, chMap_chLookup_replace p tbl h1 s]

set_option maxRecDepth 100000 in
theorem unicode_map_good : ∀ p ∈ unicode_map, ∀ q ∈ unicode_map, p.1 ∉ q.2 := by
  decide

theorem normalize_text_eq_chMap (s : Str) :
    normalize_text s = chMap (chLookup unicode_map) s :=
  foldRepl_eq_chMap unicode_map unicode_map_good s

/-- The encoding table without its percent entry: the replacements made by
the second phase of `url_encode`. -/
def encodingNoPct : List (Char × Str) :=
  encoding_map.filter (fun p => decide (p.1 ≠ '%'))

theorem foldl_skip_pct :
    ∀ (tbl : List (Char × Str)) (s : Str),
      tbl.foldl (fun r p => if p.1 = '%' then r else replaceChar p.1 p.2 r) s =
        foldRepl (tbl.filter (fun p => decide (p.1 ≠ '%'))) s
  | [], s => rfl
  | p :: tbl, s => by
    by_cases hp : p.1 = '%'
    · simp only [List.foldl_cons, if_pos hp, List.filter_cons]
      rw [if_neg (by simp [hp])]
      exact foldl_skip_pct tbl s
    · simp only [List.foldl_cons, if_neg hp, List.filter_cons]
      rw [if_pos (by simp [hp])]
      exact foldl_skip_pct tbl (replaceChar p.1 p.2 s)

theorem chAssoc_filter_pct {c : Char} (hc : c ≠ '%') :
    ∀ tbl : List (Char × Str),
      chAssoc (tbl.filter (fun p => decide (p.1 ≠ '%'))) c = chAssoc tbl c
  | [] => rfl
  | p :: tbl => by
    by_cases hp : p.1 = '%'
    · rw [List.filter_cons, if_neg (by simp [hp])]
      have : ¬ c = p.1 := fun e => hc (e.trans hp)
      rw [chAssoc_filter_pct hc tbl]
      simp [chAssoc, if_neg this]
    · rw [List.filter_cons, if_pos (by simp [hp])]
      by_cases hcp : c = p.1
      · simp [chAssoc, if_pos hcp]
      · simp only [chAssoc, if_neg hcp]
        exact chAssoc_filter_pct hc tbl

theorem encodingNoPct_good : ∀ p ∈ encodingNoPct, ∀ q ∈ encodingNoPct, p.1 ∉ q.2 := by
  decide

theorem url_encode_eq_chMap (s : Str) : url_encode s = chMap urlEncodeChar s := by
  have step1 : url_encode s = foldRepl encodingNoPct (replaceChar '%' ("%25".toList) s) := by
    unfold url_encode
    by_cases hm : '%' ∈ s
    · rw [if_pos hm, foldl_skip_pct]
      rfl
    · rw [if_neg hm, foldl_skip_pct, replaceChar_not_mem _ hm]
      rfl
  rw [step1, foldRepl_eq_chMap encodingNoPct encodingNoPct_good,
    replaceChar_eq_chMap, chMap_comp]
  refine chMap_congr _ _ s (fun c _ => ?_)
  by_cases hc : c = '%'
  · rw [if_pos hc, hc]
    decide
  · rw [if_neg hc]
    show chMap (chLookup encodingNoPct) [c] = urlEncodeChar c
    simp only [chMap, List.append_nil]
    unfold urlEncodeChar chLookup
    rw [show chAssoc encodingNoPct c = chAssoc encoding_map c from chAssoc_filter_pct hc _]

set_option maxRecDepth 8000 in
/-- Claim C4: `url_encode` first replaces every percent sign by its escape,
strictly before any other substitution, then replaces every character of the
fixed table by its two-digit uppercase-hex percent form, leaving every other
character unchanged; equivalently, it acts character-wise through the table.
In particular it encodes the test string of the claim as stated. -/
theorem url_encode_characterization :
    (∀ s, url_encode s = chMap urlEncodeChar s) ∧
    url_encode ("100% sure (yes)".toList) = ("100%25%20sure%20%28yes%29".toList) :=
  ⟨url_encode_eq_chMap, by decide⟩

set_option maxRecDepth 100000 in
/-- Claim C5: `normalize_text` replaces every occurrence of each code point
of its fixed table by the listed ASCII equivalent and leaves every other
character unchanged; equivalently, it acts character-wise through the table.
In particular the accented example of the claim normalizes as stated. -/
theorem normalize_text_characterization :
    (∀ s, normalize_text s = chMap (chLookup unicode_map) s) ∧
    normalize_text ("café — naïve".toList) = ("cafe  -  naive".toList) :=
  ⟨normalize_text_eq_chMap, by decide⟩

theorem chAssoc_perm (c : Char) {t1 t2 : List (Char × Str)} (h : t1.Perm t2)
    (hnd : (t2.map Prod.fst).Nodup) : chAssoc t1 c = chAssoc t2 c := by
  induction h with
  | nil => rfl
  | cons p hperm ih =>
    simp only [List.map_cons, List.nodup_cons] at hnd
    by_cases hc : c = p.1
    · simp [chAssoc, if_pos hc]
    · simp only [chAssoc, if_neg hc]
      exact ih hnd.2
  | swap x y l =>
    simp only [List.map_cons, List.nodup_cons, List.mem_cons] at hnd
    have hxy : ¬ x.1 = y.1 := fun e => hnd.1 (Or.inl e)
    by_cases hcx : c = x.1
    · have hcy : ¬ c = y.1 := fun e => hxy (hcx.symm.trans e)
      simp [chAssoc, if_pos hcx, if_neg hcy]
    · by_cases hcy : c = y.1
      · simp [chAssoc, if_pos hcy, if_neg hcx]
      · simp [chAssoc, if_neg hcx, if_neg hcy]
  | trans h1 h2 ih1 ih2 =>
    have hmid : _ := ((h2.map Prod.fst).nodup_iff).mpr hnd
    exact (ih1 hmid).trans (ih2 hnd)

set_option maxRecDepth 100000 in
theorem unicode_map_keys_nodup : (unicode_map.map Prod.fst).Nodup := by
  decide

set_option maxRecDepth 100000 in
theorem unicode_map_values_ascii : ∀ p ∈ unicode_map, ∀ c ∈ p.2, c.toNat < 128 := by
  decide

set_option maxRecDepth 100000 in
theorem unicode_map_keys_nonascii : ∀ p ∈ unicode_map, 128 ≤ p.1.toNat := by
  decide

theorem chLookup_unicode_fixed {c : Char} (hc : c.toNat < 128) :
    chLookup unicode_map c = [c] := by
  have : chAssoc unicode_map c = none := by
    refine chAssoc_eq_none (fun p hp e => ?_)
    have := unicode_map_keys_nonascii p hp
    rw [e] at this
    omega
  simp [chLookup, this]

theorem chLookup_unicode_point (c : Char) :
    chMap (chLookup unicode_map) (chLookup unicode_map c) = chLookup unicode_map c := by
  cases h : chAssoc unicode_map c with
  | none =>
    have hc : chLookup unicode_map c = [c] := by simp [chLookup, h]
    rw [hc]
    simp [chMap, hc]
  | some v =>
    simp only [chLookup, h]
    refine chMap_congr_id _ _ (fun x hx => ?_)
    have hmem := mem_of_chAssoc_some h
    have hascii := unicode_map_values_ascii (c, v) hmem x hx
    exact chLookup_unicode_fixed hascii

/-- Claim C6: `normalize_text` is idempotent, and applying the table
replacements in any order (any permutation of the table) yields the same
result; this rests on the facts, also stated, that every replacement output
is plain ASCII while every table key is non-ASCII. -/
theorem normalize_text_idempotent_order_independent :
    (∀ x, normalize_text (normalize_text x) = normalize_text x) ∧
    (∀ tbl, tbl.Perm unicode_map → ∀ s, foldRepl tbl s = normalize_text s) ∧
    (∀ p ∈ unicode_map, ∀ c ∈ p.2, c.toNat < 128) ∧
    (∀ p ∈ unicode_map, 128 ≤ p.1.toNat) := by
  refine ⟨?_, ?_, unicode_map_values_ascii, unicode_map_keys_nonascii⟩
  · intro x
    rw [normalize_text_eq_chMap x, normalize_text_eq_chMap,
      chMap_comp]
    exact chMap_congr _ _ x (fun c _ => chLookup_unicode_point c)
  · intro tbl hperm s
    have hgood : ∀ p ∈ tbl, ∀ q ∈ tbl, p.1 ∉ q.2 := fun p hp q hq =>
      unicode_map_good p (hperm.mem_iff.mp hp) q (hperm.mem_iff.mp hq)
    rw [foldRepl_eq_chMap tbl hgood s, normalize_text_eq_chMap]
    refine chMap_congr _ _ s (fun c _ => ?_)
    unfold chLookup
    rw [chAssoc_perm c hperm unicode_map_keys_nodup]

/-- Witness for C6: the order-independence part applied to the table with its
first two entries swapped, on a concrete string. -/
theorem normalize_text_idempotent_order_independent_witness :
    foldRepl (('—', (" - ".toList)) :: ('–', (" - ".toList)) :: unicode_map.drop 2)
        ("a – b".toList) =
      normalize_text ("a – b".toList) := by
  refine normalize_text_idempotent_order_independent.2.1 _ ?_ _
  exact List.Perm.swap _ _ _

/-- Claim C1: on a response with a non-empty pages mapping, the interpreter
selects exactly one of the three outcomes: not-found exactly when the first
page-id key is the sentinel, otherwise disambiguation (the empty case
included) exactly when the page carries the disambiguation pageprop,
otherwise direct-article; the three are mutually exclusive and exhaustive. -/
theorem interpret_trichotomy (q page_id : Str) (page : Page)
    (rest : List (Str × Page)) :
    ∃ o, interpret q ((page_id, page) :: rest) = some o ∧
      (isNotFoundOutcome o ↔ page_id = ("-1".toList)) ∧
      (isDisambigOutcome o ↔ (page_id ≠ ("-1".toList) ∧ pageIsDisambig page = true)) ∧
      (isArticleOutcome o ↔ (page_id ≠ ("-1".toList) ∧ pageIsDisambig page = false)) ∧
      (isNotFoundOutcome o ∨ isDisambigOutcome o ∨ isArticleOutcome o) ∧
      ¬ (isNotFoundOutcome o ∧ isDisambigOutcome o) ∧
      ¬ (isNotFoundOutcome o ∧ isArticleOutcome o) ∧
      ¬ (isDisambigOutcome o ∧ isArticleOutcome o) := by
  by_cases h1 : page_id = ("-1".toList)
  · exact ⟨Outcome.notFound, by
      simp [interpret, isNotFoundOutcome, isDisambigOutcome, isArticleOutcome, h1]⟩
  · have h1l : ¬ page_id = ['-', '1'] := by simpa using h1
    by_cases h2 : pageIsDisambig page = true
    · by_cases h3 : collectTitles (page.links.getD []) = []
      · exact ⟨Outcome.disambiguationEmpty, by
          simp [interpret, isNotFoundOutcome, isDisambigOutcome, isArticleOutcome,
            h1, h1l, h2, h3]⟩
      · exact ⟨Outcome.disambiguation q (collectTitles (page.links.getD [])), by
          simp [interpret, isNotFoundOutcome, isDisambigOutcome, isArticleOutcome,
            h1, h1l, h2, h3]⟩
    · rw [Bool.not_eq_true] at h2
      exact ⟨Outcome.article (page.title.getD q)
          (page.extract.getD ("NO EXTRACT FOUND".toList)), by
        simp [interpret, isNotFoundOutcome, isDisambigOutcome, isArticleOutcome,
          h1, h1l, h2]⟩

theorem collectTitles_go :
    ∀ (links : List Link) (acc : List Str),
      links.foldl
        (fun acc l =>
          if l.ns = some 0 then
            match l.title with
            | some t => if t ≠ [] then acc ++ [t] else acc
            | none => acc
          else acc) acc =
      acc ++ (links.filter
        (fun l => decide (l.ns = some 0 ∧ l.title ≠ none ∧ l.title ≠ some []))).map
        (fun l => l.title.getD [])
  | [], acc => by simp
  | l :: links, acc => by
    by_cases h0 : l.ns = some 0
    · cases ht : l.title with
      | none =>
        simp only [List.foldl_cons, if_pos h0, ht, List.filter_cons]
        rw [if_neg (by simp [ht])]
        exact collectTitles_go links acc
      | some t =>
        by_cases hte : t = []
        · simp only [List.foldl_cons, if_pos h0, ht, hte, ne_eq, not_true_eq_false,
            if_false, List.filter_cons]
          rw [if_neg (by simp [ht, hte])]
          exact collectTitles_go links acc
        · simp only [List.foldl_cons, if_pos h0, ht, ne_eq, hte, not_false_eq_true,
            if_true, List.filter_cons]
          rw [if_pos (by simp [h0, ht, hte])]
          rw [collectTitles_go links (acc ++ [t])]
          simp [ht]
    · simp only [List.foldl_cons, if_neg h0, List.filter_cons]
      rw [if_neg (by simp [h0])]
      exact collectTitles_go links acc

theorem collectTitles_eq (links : List Link) :
    collectTitles links =
      (links.filter
        (fun l => decide (l.ns = some 0 ∧ l.title ≠ none ∧ l.title ≠ some []))).map
        (fun l => l.title.getD []) := by
  have h := collectTitles_go links []
  simpa [collectTitles] using h

/-- Claim C2: for a disambiguation page the candidate-title list is exactly
the list of titles of the `links` entries with namespace 0 and a present,
non-empty title, in order of appearance and with duplicates preserved; the
two-link example of the claim yields exactly the single main-namespace
title; and an empty candidate list produces the distinct empty-disambiguation
outcome rather than an empty picker. -/
theorem disambiguation_candidates (q page_id : Str) (page : Page)
    (rest : List (Str × Page)) (h1 : page_id ≠ ("-1".toList))
    (h2 : pageIsDisambig page = true) :
    (collectTitles (page.links.getD []) =
      ((page.links.getD []).filter
        (fun l => decide (l.ns = some 0 ∧ l.title ≠ none ∧ l.title ≠ some []))).map
        (fun l => l.title.getD [])) ∧
    (collectTitles [Link.mk (some 0) (some ("X".toList)),
        Link.mk (some 14) (some ("Category:Y".toList))] = [("X".toList)]) ∧
    (collectTitles (page.links.getD []) = [] →
      interpret q ((page_id, page) :: rest) = some Outcome.disambiguationEmpty) ∧
    (collectTitles (page.links.getD []) ≠ [] →
      interpret q ((page_id, page) :: rest) =
        some (Outcome.disambiguation q (collectTitles (page.links.getD [])))) := by
  have h1l : ¬ page_id = ['-', '1'] := by simpa using h1
  refine ⟨collectTitles_eq _, by decide, ?_, ?_⟩
  · intro h3
    simp [interpret, h1l, h2, h3]
  · intro h3
    simp [interpret, h1l, h2, h3]

/-- Witness for C2: a concrete disambiguation page whose links hold no
main-namespace titles produces the empty-disambiguation outcome. -/
theorem disambiguation_candidates_witness :
    interpret ("Q".toList)
      [(("7".toList),
        Page.mk none none (some [("disambiguation".toList)]) (some []))] =
      some Outcome.disambiguationEmpty :=
  (disambiguation_candidates ("Q".toList) ("7".toList)
    (Page.mk none none (some [("disambiguation".toList)]) (some [])) []
    (by decide) (by decide)).2.2.1 (by decide)

/-- Claim C7: in the direct-article outcome, a missing title falls back to
the original query and a missing extract falls back to the fixed sentinel
text. -/
theorem interpret_article_defaults (q page_id : Str) (page : Page)
    (rest : List (Str × Page)) (h1 : page_id ≠ ("-1".toList))
    (h2 : pageIsDisambig page = false) :
    (page.title = none →
      interpret q ((page_id, page) :: rest) =
        some (Outcome.article q (page.extract.getD ("NO EXTRACT FOUND".toList)))) ∧
    (page.extract = none →
      interpret q ((page_id, page) :: rest) =
        some (Outcome.article (page.title.getD q) ("NO EXTRACT FOUND".toList))) := by
  have h1l : ¬ page_id = ['-', '1'] := by simpa using h1
  constructor
  · intro ht
    simp [interpret, h1l, h2, ht]
  · intro he
    simp [interpret, h1l, h2, he]

/-- Witness for C7: a concrete page with both fields missing displays the
query as title and the sentinel as extract. -/
theorem interpret_article_defaults_witness :
    interpret ("Paris".toList) [(("123".toList), Page.mk none none none none)] =
      some (Outcome.article ("Paris".toList) ("NO EXTRACT FOUND".toList)) :=
  (interpret_article_defaults ("Paris".toList) ("123".toList)
    (Page.mk none none none none) [] (by decide) (by decide)).1 rfl

/-- Claim C8: the not-found outcome occurs exactly when the first page-id is
the sentinel; it is rendered as the literal not-found message with the query
interpolated, as an ordinary returned value (no exception in the model), and
it displays no article. -/
theorem notFound_behavior :
    (∀ (q page_id : Str) (page : Page) (rest : List (Str × Page)),
      interpret q ((page_id, page) :: rest) = some Outcome.notFound ↔
        page_id = ("-1".toList)) ∧
    (∀ q colorHex, renderOutcome q colorHex Outcome.notFound =
      RenderAction.showMessage (("Article ".toList) ++ [apos] ++ q ++ [apos]
        ++ (" not found.".toList))) ∧
    (∀ q colorHex t b,
      renderOutcome q colorHex Outcome.notFound ≠ RenderAction.showArticle t b) := by
  refine ⟨?_, fun q colorHex => rfl, fun q colorHex t b => by simp [renderOutcome]⟩
  intro q page_id page rest
  constructor
  · intro h
    by_contra h1
    have h1l : ¬ page_id = ['-', '1'] := by simpa using h1
    by_cases h2 : pageIsDisambig page = true
    · by_cases h3 : collectTitles (page.links.getD []) = []
      · simp [interpret, h1l, h2, h3] at h
      · simp [interpret, h1l, h2, h3] at h
    · rw [Bool.not_eq_true] at h2
      simp [interpret, h1l, h2] at h
  · intro h
    simp [interpret, h]

theorem isPrefixOf_iff_take : ∀ (p l : Str), p.isPrefixOf l = true ↔ l.take p.length = p
  | [], l => by simp [List.isPrefixOf]
  | a :: as, [] => by simp [List.isPrefixOf]
  | a :: as, b :: l => by
    simp only [List.isPrefixOf, Bool.and_eq_true, beq_iff_eq, List.length_cons,
      List.take_succ_cons, List.cons.injEq]
    constructor
    · rintro ⟨hab, h⟩
      exact ⟨hab.symm, (isPrefixOf_iff_take as l).mp h⟩
    · rintro ⟨hab, h⟩
      exact ⟨hab.symm, (isPrefixOf_iff_take as l).mpr h⟩

theorem isSuffixOf_iff_drop (p l : Str) :
    p.isSuffixOf l = true ↔ l.drop (l.length - p.length) = p := by
  have h0 : p.isSuffixOf l = p.reverse.isPrefixOf l.reverse := rfl
  rw [h0, isPrefixOf_iff_take, List.length_reverse]
  have hr : (l.reverse.take p.length).reverse = l.drop (l.length - p.length) :=
    (List.rtake_eq_reverse_take_reverse l p.length).symm
  constructor
  · intro h
    rw [← hr, h, List.reverse_reverse]
  · intro h
    have h2 : (l.reverse.take p.length).reverse = p := hr.trans h
    have h3 := congrArg List.reverse h2
    rwa [List.reverse_reverse] at h3

theorem pySlice_comm (a b : Nat) (l : Str) :
    pySlice a b l = (l.drop a).take (l.length - (a + b)) := by
  unfold pySlice
  rw [List.drop_take ..]
  congr 1
  omega

theorem styleLine_unfold (colorHex rawLine : Str) :
    styleLine colorHex rawLine =
      (if (("=== ".toList).isPrefixOf (pyRstrip rawLine)
            && (" ===".toList).isSuffixOf (pyRstrip rawLine)) then
        ("#".toList) ++ colorHex ++ (" === ".toList) ++ pySlice 4 4 (pyRstrip rawLine)
          ++ (" ===#".toList)
      else if (("== ".toList).isPrefixOf (pyRstrip rawLine)
            && (" ==".toList).isSuffixOf (pyRstrip rawLine)) then
        ("#".toList) ++ colorHex ++ (" == ".toList) ++ pySlice 3 3 (pyRstrip rawLine)
          ++ (" ==#".toList)
      else pyRstrip rawLine) := rfl

theorem styleLineClaim_unfold (colorHex rawLine : Str) :
    styleLineClaim colorHex rawLine =
      (if (pyRstrip rawLine).take 4 = ("=== ".toList) ∧
            (pyRstrip rawLine).drop ((pyRstrip rawLine).length - 4) = (" ===".toList) then
        ("#".toList) ++ colorHex ++ (" === ".toList)
          ++ ((pyRstrip rawLine).drop 4).take ((pyRstrip rawLine).length - 8)
          ++ (" ===#".toList)
      else if (pyRstrip rawLine).take 3 = ("== ".toList) ∧
            (pyRstrip rawLine).drop ((pyRstrip rawLine).length - 3) = (" ==".toList) then
        ("#".toList) ++ colorHex ++ (" == ".toList)
          ++ ((pyRstrip rawLine).drop 3).take ((pyRstrip rawLine).length - 6)
          ++ (" ==#".toList)
      else pyRstrip rawLine) := rfl

theorem styleLine_eq_claim (colorHex rawLine : Str) :
    styleLine colorHex rawLine = styleLineClaim colorHex rawLine := by
  rw [styleLine_unfold, styleLineClaim_unfold]
  have e3 : (("=== ".toList).isPrefixOf (pyRstrip rawLine)
        && (" ===".toList).isSuffixOf (pyRstrip rawLine)) = true ↔
      ((pyRstrip rawLine).take 4 = ("=== ".toList) ∧
        (pyRstrip rawLine).drop ((pyRstrip rawLine).length - 4) = (" ===".toList)) := by
    rw [Bool.and_eq_true, isPrefixOf_iff_take, isSuffixOf_iff_drop,
      show ("=== ".toList).length = 4 from rfl, show (" ===".toList).length = 4 from rfl]
  have e2 : (("== ".toList).isPrefixOf (pyRstrip rawLine)
        && (" ==".toList).isSuffixOf (pyRstrip rawLine)) = true ↔
      ((pyRstrip rawLine).take 3 = ("== ".toList) ∧
        (pyRstrip rawLine).drop ((pyRstrip rawLine).length - 3) = (" ==".toList)) := by
    rw [Bool.and_eq_true, isPrefixOf_iff_take, isSuffixOf_iff_drop,
      show ("== ".toList).length = 3 from rfl, show (" ==".toList).length = 3 from rfl]
  by_cases h3 : (pyRstrip rawLine).take 4 = ("=== ".toList) ∧
      (pyRstrip rawLine).drop ((pyRstrip rawLine).length - 4) = (" ===".toList)
  · rw [if_pos (e3.mpr h3), if_pos h3, pySlice_comm]
  · rw [if_neg (fun hb => h3 (e3.mp hb)), if_neg h3]
    by_cases h2 : (pyRstrip rawLine).take 3 = ("== ".toList) ∧
        (pyRstrip rawLine).drop ((pyRstrip rawLine).length - 3) = (" ==".toList)
    · rw [if_pos (e2.mpr h2), if_pos h2, pySlice_comm]
    · rw [if_neg (fun hb => h2 (e2.mp hb)), if_neg h2]

theorem foldl_append_eq_map (f : Str → Str) :
    ∀ (ls : List Str) (acc : List Str),
      ls.foldl (fun a l => a ++ [f l]) acc = acc ++ ls.map f
  | [], acc => by simp
  | l :: ls, acc => by
    simp only [List.foldl_cons, List.map_cons]
    rw [foldl_append_eq_map f ls (acc ++ [f l])]
    simp

set_option maxRecDepth 20000 in
/-- Claim C3: the heading styler splits on newlines, maps each line (after a
trailing-whitespace strip) by the prefix/suffix heading rules of the claim
with the stated marker stripping, joins with newlines, and trims the whole
result; the two-heading example of the claim styles as stated. -/
theorem styleHeadings_characterization :
    (∀ colorHex text, styleHeadings colorHex text =
      pyStrip (List.intercalate ("\n".toList)
        ((splitSep '\n' text).map (styleLineClaim colorHex)))) ∧
    styleHeadings ("ff0000".toList) ("== A ==\ntext\n=== B ===".toList) =
      ("#ff0000 == A ==#\ntext\n#ff0000 === B ===#".toList) := by
  constructor
  · intro colorHex text
    show pyStrip (("\n".toList).intercalate
        (List.foldl (fun acc line => acc ++ [styleLine colorHex line]) []
          (splitSep '\n' text))) = _
    rw [foldl_append_eq_map]
    rw [List.nil_append]
    have hf : styleLine colorHex = styleLineClaim colorHex :=
      funext (styleLine_eq_claim colorHex)
    rw [hf]
  · decide

set_option maxRecDepth 20000 in
/-- Claim C9: the per-line heading classification is total: every line is
styled as a level-3 heading span, a level-2 heading span, or passed through
with only its trailing whitespace stripped; the degenerate line of seven
characters consisting of the two overlapping markers is classified as a
level-3 heading whose extracted text is empty. -/
theorem styleLine_total_classification :
    (∀ colorHex line,
      (∃ t, styleLine colorHex line =
        ("#".toList) ++ colorHex ++ (" === ".toList) ++ t ++ (" ===#".toList)) ∨
      (∃ t, styleLine colorHex line =
        ("#".toList) ++ colorHex ++ (" == ".toList) ++ t ++ (" ==#".toList)) ∨
      styleLine colorHex line = pyRstrip line) ∧
    (∀ colorHex, styleLine colorHex ("=== ===".toList) =
      ("#".toList) ++ colorHex ++ (" === ".toList) ++ ([] : Str) ++ (" ===#".toList)) ∧
    pySlice 4 4 ("=== ===".toList) = [] := by
  refine ⟨?_, ?_, by decide⟩
  · intro colorHex line
    rw [styleLine_unfold]
    by_cases h3 : (("=== ".toList).isPrefixOf (pyRstrip line)
        && (" ===".toList).isSuffixOf (pyRstrip line)) = true
    · exact Or.inl ⟨pySlice 4 4 (pyRstrip line), by rw [if_pos h3]⟩
    · by_cases h2 : (("== ".toList).isPrefixOf (pyRstrip line)
          && (" ==".toList).isSuffixOf (pyRstrip line)) = true
      · exact Or.inr (Or.inl ⟨pySlice 3 3 (pyRstrip line), by rw [if_neg h3, if_pos h2]⟩)
      · exact Or.inr (Or.inr (by rw [if_neg h3, if_neg h2]))
  · intro colorHex
    rw [styleLine_unfold]
    rw [if_pos (by decide)]
    have hs : pySlice 4 4 (pyRstrip ("=== ===".toList)) = ([] : Str) := by decide
    rw [show pyRstrip ("=== ===".toList) = ("=== ===".toList) from rfl] at hs ⊢
    rw [hs]

set_option maxRecDepth 8000 in
theorem encoding_map_shape :
    ∀ p ∈ encoding_map, ∃ x y a b,
      p.2 = ['%', x, y] ∧ hexDigitVal x = some a ∧ hexDigitVal y = some b ∧
        Char.ofNat (16 * a + b) = p.1 := by
  intro p hp
  fin_cases hp <;> exact ⟨_, _, _, _, rfl, rfl, rfl, by decide⟩

theorem percentDecode_cons {c : Char} (hc : c ≠ '%') :
    ∀ s : Str, percentDecode (c :: s) = c :: percentDecode s
  | [] => by simp [percentDecode]
  | [a] => by simp [percentDecode]
  | a :: b :: t => by
    rw [percentDecode, if_neg hc]

theorem percentDecode_triplet {x y : Char} {a b : Nat}
    (hx : hexDigitVal x = some a) (hy : hexDigitVal y = some b) (s : Str) :
    percentDecode ('%' :: x :: y :: s) = Char.ofNat (16 * a + b) :: percentDecode s := by
  rw [percentDecode, if_pos rfl, hx, hy]

theorem percentDecode_encodeChar (c : Char) (s : Str) :
    percentDecode (urlEncodeChar c ++ s) = c :: percentDecode s := by
  cases h : chAssoc encoding_map c with
  | some v =>
    have hv : urlEncodeChar c = v := by simp [urlEncodeChar, chLookup, h]
    have hmem := mem_of_chAssoc_some h
    obtain ⟨x, y, a, b, hshape, hx, hy, hofn⟩ := encoding_map_shape (c, v) hmem
    have hshape2 : v = ['%', x, y] := hshape
    have hofn2 : Char.ofNat (16 * a + b) = c := hofn
    rw [hv, hshape2]
    show percentDecode ('%' :: x :: y :: s) = c :: percentDecode s
    rw [percentDecode_triplet hx hy s, hofn2]
  | none =>
    have hv : urlEncodeChar c = [c] := by simp [urlEncodeChar, chLookup, h]
    have hc : c ≠ '%' := by
      intro e
      rw [e] at h
      have h25 : chAssoc encoding_map '%' = some ("%25".toList) := by decide
      rw [h25] at h
      cases h
    rw [hv]
    show percentDecode (c :: s) = c :: percentDecode s
    exact percentDecode_cons hc s

theorem percentDecode_chMap (x : Str) :
    percentDecode (chMap urlEncodeChar x) = x := by
  induction x with
  | nil => rfl
  | cons c rest ih =>
    show percentDecode (urlEncodeChar c ++ chMap urlEncodeChar rest) = c :: rest
    rw [percentDecode_encodeChar, ih]

/-- Claim C10: standard percent-decoding of `url_encode` output recovers the
input exactly, because the percent pre-pass guarantees every percent sign of
the output begins an escape triplet; hence `url_encode` is injective. -/
theorem url_encode_roundtrip_injective :
    (∀ x, percentDecode (url_encode x) = x) ∧ Function.Injective url_encode := by
  have hdec : ∀ x, percentDecode (url_encode x) = x := by
    intro x
    rw [url_encode_eq_chMap]
    exact percentDecode_chMap x
  refine ⟨hdec, fun a b hab => ?_⟩
  have ha := hdec a
  have hb := hdec b
  rw [← ha, ← hb, hab]
